import Mathlib

/-!
# Verification of the send-window scheduler of `email-automater`

This file gives a shallow embedding of the scheduling code of the
repository (`src/utils/schedule_helper.py`) and of the CSV-driven
send-window resolver that the repository's callers and tests import
(`parse_time_ranges_csv` and the schedule-taking
`get_scheduled_send_time(day_ranges, timezone, now)`), and proves the
spec's testable properties about them.

## Time model

All instants are wall-clock values in the target timezone, measured as a
natural number of seconds since an epoch that falls on a Monday at
00:00.  The spec states that all comparisons are wall-clock comparisons
in the schedule's declared timezone and that DST transitions get no
special handling, so localization is the identity in this model and the
timezone argument of the Python functions disappears.  Times of day are
seconds in `[0, 86400)`; Python `weekday()` (0 = Monday … 6 = Sunday)
becomes `dayIndex t % 7` because the epoch is a Monday.

Randomness is made explicit: `random.randint(0, range_seconds)` becomes
an extra argument `r`, with `r ≤ range_seconds` as the hypothesis that
the value is one the generator can actually produce.
-/

/-- Seconds in one day. -/
def secPerDay : Nat := 86400

/-- Day number of an instant (whole days since the Monday epoch). -/
def dayIndex (t : Nat) : Nat := t / secPerDay

/-- Time of day of an instant, in seconds since midnight. -/
def timeOfDay (t : Nat) : Nat := t % secPerDay

/-- Weekday of an instant, 0 = Monday … 6 = Sunday (epoch is a Monday),
matching Python `datetime.weekday()`. -/
def weekdayOf (t : Nat) : Nat := dayIndex t % 7

/-- A send interval: `(start, end)` pair of second values.  In the weekly
schedule these are seconds-of-day; in the legacy hard-coded range list
they are absolute instants. -/
abbrev SendInterval := Nat × Nat

/-- A parsed weekly schedule: one list of intervals per weekday, index
0 = Monday … 6 = Sunday (Python list of 7 lists). -/
abbrev Schedule := List (List SendInterval)

/-- `HH:MM` converted to seconds of day, as Python
`time.hour * 3600 + time.minute * 60`. -/
def hmToSec (h m : Nat) : Nat := h * 3600 + m * 60

/-- A CSV row `(DAY, (start HH, start MM), (end HH, end MM))` after the
string fields have been read. -/
abbrev Row := Nat × (Nat × Nat) × (Nat × Nat)

/-- Stable sort of an interval list by start value, as Python
`list.sort(key=lambda x: x[0])`. -/
def sortByStart (l : List SendInterval) : List SendInterval :=
  List.insertionSort (fun a b => a.1 ≤ b.1) l

/-- Modelled from the spec: `parse_time_ranges_csv` is imported from
`utils.schedule_helper` by `automate_emails.py`, `send_followups.py` and
the tests, but the copy of `src/utils/schedule_helper.py` in the tree
predates it.  Spec §4.1: parse each row's day index and two `HH:MM`
times, group the intervals by day index into 7 buckets, and sort each
day's list ascending by start time. -/
def parse_time_ranges_csv (rows : List Row) : Schedule :=
  (List.range 7).map fun d =>
    sortByStart ((rows.filter (fun row => row.1 == d)).map
      (fun row => (hmToSec row.2.1.1 row.2.1.2, hmToSec row.2.2.1 row.2.2.2)))

/-- The three variants of a scheduling decision (spec §3): send
immediately, send at a computed future instant, or no window exists. -/
inductive Decision where
  | sendNow : Decision
  | sendAt (t : Nat) : Decision
  | noWindowAvailable : Decision
deriving DecidableEq, Repr

/-- The half-open containment check `start <= t < end` used by the
resolver (`start_time <= now < end_time` in `find_current_range`). -/
def inRangeB (iv : SendInterval) (t : Nat) : Bool := iv.1 ≤ t && t < iv.2

/-- First interval of a day's list that contains the time of day `t`
(spec §4.2 step 2, and `find_current_range` of the source). -/
def findCurrentRange (bucket : List SendInterval) (t : Nat) : Option SendInterval :=
  bucket.find? (fun iv => inRangeB iv t)

/-- First interval of today's sorted list whose start lies strictly
after `t` (spec §4.2 step 2: earliest upcoming interval today). -/
def findUpcomingToday (bucket : List SendInterval) (t : Nat) : Option SendInterval :=
  bucket.find? (fun iv => t < iv.1)

/-- Modelled from the spec (§4.2 step 3): circular scan over the
weekdays after today.  `k` is the current day offset from today and the
fuel counts the offsets still allowed before the scan is back at the
starting weekday; reaching it yields `some none` (`NoWindowAvailable`),
a day whose bucket is nonempty yields `some (some (k, first interval))`,
and an out-of-bounds day index models a Python `IndexError` as `none`. -/
def scanDays (sched : Schedule) (wd : Nat) : Nat → Nat → Option (Option (Nat × SendInterval))
  | _, 0 => some none
  | k, Nat.succ fuel =>
    match sched[(wd + k) % 7]? with
    | none => none
    | some bucket =>
      match bucket.head? with
      | some iv => some (some (k, iv))
      | none => scanDays sched wd (k + 1) fuel

/-- Modelled from the spec: the schedule-taking
`get_scheduled_send_time(day_ranges, timezone, now)` imported by the
callers and tests, absent from the tree's copy of
`src/utils/schedule_helper.py`.  Spec §4.2: localize `now` (identity
here), return `SendNow` when a current interval contains the time of
day, otherwise take the earliest upcoming interval today or the first
interval of the next day found by the circular scan, and send at the
chosen day combined with a drawn second value between the interval's
start and end offsets.  The random draw is the explicit argument `r`
(offset from the interval start, so the drawn second value is
`start + r` and a faithful draw has `r ≤ end - start`).  The outer
`Option` models exceptions: `none` is a raised `IndexError`. -/
def get_scheduled_send_time (sched : Schedule) (now : Nat) (r : Nat) : Option Decision :=
  let wd := weekdayOf now
  let t := timeOfDay now
  match sched[wd]? with
  | none => none
  | some today =>
    match findCurrentRange today t with
    | some _ => some .sendNow
    | none =>
      match findUpcomingToday today t with
      | some iv => some (.sendAt (dayIndex now * secPerDay + (iv.1 + r)))
      | none =>
        match scanDays sched wd 1 6 with
        | none => none
        | some none => some .noWindowAvailable
        | some (some (k, iv)) =>
          some (.sendAt ((dayIndex now + k) * secPerDay + (iv.1 + r)))

/-! ## Legacy hard-coded scheduler (the code in `src/utils/schedule_helper.py`) -/

/-- Midnight of the Monday of `now`'s week:
`(now - timedelta(days=now.weekday())).replace(hour=0, minute=0, second=0,
microsecond=0)`. -/
def mondayOf (now : Nat) : Nat := (dayIndex now - weekdayOf now) * secPerDay

/-- `get_allowed_date_ranges` of `src/utils/schedule_helper.py`: for the
current and the next week, Monday through Thursday get 10:00–11:00 and
14:00–14:30 ranges, and the current week's Friday gets 10:00–11:00,
appended last. -/
def get_allowed_date_ranges (now : Nat) : List SendInterval :=
  let monday := mondayOf now
  (((List.range 2).map fun wo =>
    ((List.range 4).map fun doff =>
      let dayStart := monday + (7 * wo + doff) * secPerDay
      [(dayStart + hmToSec 10 0, dayStart + hmToSec 11 0),
       (dayStart + hmToSec 14 0, dayStart + hmToSec 14 30)]).flatten).flatten)
  ++ [(monday + 4 * secPerDay + hmToSec 10 0, monday + 4 * secPerDay + hmToSec 11 0)]

/-- `find_current_range` of `src/utils/schedule_helper.py`: first range
with `start_time <= now < end_time`. -/
def find_current_range (now : Nat) (ranges : List SendInterval) : Option SendInterval :=
  ranges.find? (fun iv => inRangeB iv now)

/-- `find_next_range` of `src/utils/schedule_helper.py`: keep the ranges
with `start > now`, sort them by start, and take element `[0]`; the
`Option` result models the `IndexError` Python raises when no future
range exists. -/
def find_next_range (now : Nat) (ranges : List SendInterval) : Option SendInterval :=
  (sortByStart (ranges.filter (fun iv => now < iv.1))).head?

/-- `get_scheduled_send_time()` of `src/utils/schedule_helper.py`, with
the hidden inputs made explicit: `now` stands for
`datetime.datetime.now(tz=LOS_ANGELES_TZ)` and `r` for
`random.randint(0, range_seconds)`.  Returns `True` (here `sendNow`)
inside an allowed range, else the next range's start plus the drawn
seconds. -/
def get_scheduled_send_time_legacy (now : Nat) (r : Nat) : Option Decision :=
  let ranges := get_allowed_date_ranges now
  match find_current_range now ranges with
  | some _ => some .sendNow
  | none =>
    match find_next_range now ranges with
    | none => none
    | some iv => some (.sendAt (iv.1 + r))

/-! ## Helper lemmas -/

instance : IsTotal SendInterval (fun a b => a.1 ≤ b.1) :=
  ⟨fun a b => Nat.le_total a.1 b.1⟩

instance : IsTrans SendInterval (fun a b => a.1 ≤ b.1) :=
  ⟨fun _ _ _ => Nat.le_trans⟩

theorem mem_sortByStart {x : SendInterval} {l : List SendInterval} :
    x ∈ sortByStart l ↔ x ∈ l :=
  (List.perm_insertionSort _ l).mem_iff

theorem sorted_sortByStart (l : List SendInterval) :
    List.Pairwise (fun a b : SendInterval => a.1 ≤ b.1) (sortByStart l) :=
  List.sorted_insertionSort _ l

theorem inRangeB_eq_true {iv : SendInterval} {t : Nat} :
    inRangeB iv t = true ↔ iv.1 ≤ t ∧ t < iv.2 := by
  simp [inRangeB]

theorem findCurrentRange_isSome_iff {bucket : List SendInterval} {t : Nat} :
    (findCurrentRange bucket t).isSome ↔ ∃ iv ∈ bucket, iv.1 ≤ t ∧ t < iv.2 := by
  simp [findCurrentRange, List.find?_isSome, inRangeB]

/-- C1: for every schedule and current instant, the resolver answers
`SendNow` exactly when one of today's intervals contains the current
time of day under the half-open check `start ≤ now < end`; an instant at
an interval's start is in range, one at its end is not. -/
theorem sendNow_iff_current_interval (sched : Schedule) (now r : Nat)
    (today : List SendInterval)
    (htoday : sched[weekdayOf now]? = some today) :
    (get_scheduled_send_time sched now r = some .sendNow ↔
      ∃ iv ∈ today, iv.1 ≤ timeOfDay now ∧ timeOfDay now < iv.2) ∧
    (∀ iv ∈ today, iv.1 = timeOfDay now → timeOfDay now < iv.2 →
      get_scheduled_send_time sched now r = some .sendNow) ∧
    (∀ iv : SendInterval, timeOfDay now = iv.2 → inRangeB iv (timeOfDay now) = false) := by
  have hiff : get_scheduled_send_time sched now r = some .sendNow ↔
      ∃ iv ∈ today, iv.1 ≤ timeOfDay now ∧ timeOfDay now < iv.2 := by
    rw [← findCurrentRange_isSome_iff]
    simp only [get_scheduled_send_time, htoday]
    cases hfc : findCurrentRange today (timeOfDay now) with
    | some iv => simp [hfc]
    | none =>
      simp only [hfc, Option.isSome_none]
      cases hup : findUpcomingToday today (timeOfDay now) with
      | some iv => simp [hup]
      | none =>
        simp only [hup]
        cases hscan : scanDays sched (weekdayOf now) 1 6 with
        | none => simp [hscan]
        | some o => cases o with
          | none => simp [hscan]
          | some p => simp [hscan]
  refine ⟨hiff, ?_, ?_⟩
  · intro iv hmem hstart hend
    exact hiff.mpr ⟨iv, hmem, le_of_eq hstart, hend⟩
  · intro iv hend
    simp [inRangeB, hend]

/-- A concrete weekly schedule: one interval 10:00–11:00 on Monday. -/
def mondayMorning : Schedule := [[(36000, 39600)], [], [], [], [], [], []]

/-- A concrete weekly schedule with no interval on any day. -/
def emptyWeek : Schedule := [[], [], [], [], [], [], []]

/-- Witness for C1 at Monday 10:00 with the Monday 10:00–11:00 schedule. -/
theorem sendNow_iff_current_interval_witness :
    get_scheduled_send_time mondayMorning 36000 0 = some Decision.sendNow :=
  ((sendNow_iff_current_interval mondayMorning 36000 0 [(36000, 39600)] rfl).1).mpr
    ⟨(36000, 39600), by decide, by decide, by decide⟩

theorem scanDays_isSome (sched : Schedule) (wd : Nat) (h7 : sched.length = 7) :
    ∀ fuel k, (scanDays sched wd k fuel).isSome := by
  intro fuel
  induction fuel with
  | zero => intro k; rfl
  | succ n ih =>
    intro k
    have hlt : (wd + k) % 7 < sched.length := by rw [h7]; exact Nat.mod_lt _ (by decide)
    simp only [scanDays, List.getElem?_eq_getElem hlt]
    cases hh : sched[(wd + k) % 7].head? with
    | some iv => rfl
    | none => exact ih (k + 1)

theorem scanDays_of_all_empty (sched : Schedule) (wd : Nat) (h7 : sched.length = 7)
    (hempty : ∀ b ∈ sched, b = []) :
    ∀ fuel k, scanDays sched wd k fuel = some none := by
  intro fuel
  induction fuel with
  | zero => intro k; rfl
  | succ n ih =>
    intro k
    have hlt : (wd + k) % 7 < sched.length := by rw [h7]; exact Nat.mod_lt _ (by decide)
    have hb : sched[(wd + k) % 7] = [] := hempty _ (List.getElem_mem hlt)
    simp only [scanDays, List.getElem?_eq_getElem hlt, hb, List.head?_nil]
    exact ih (k + 1)

/-- C5: for every 7-day schedule, every instant and every drawn jitter,
the resolver raises no exception: it returns an actual decision (and the
`Decision` type has exactly the three variants `sendNow`, `sendAt`,
`noWindowAvailable`). -/
theorem resolver_total (sched : Schedule) (now r : Nat) (h7 : sched.length = 7) :
    (get_scheduled_send_time sched now r).isSome := by
  have hwd : weekdayOf now < sched.length := by
    rw [h7]; exact Nat.mod_lt _ (by decide)
  simp only [get_scheduled_send_time, List.getElem?_eq_getElem hwd]
  cases hfc : findCurrentRange sched[weekdayOf now] (timeOfDay now) with
  | some iv => rfl
  | none =>
    simp only [hfc]
    cases hup : findUpcomingToday sched[weekdayOf now] (timeOfDay now) with
    | some iv => rfl
    | none =>
      simp only [hup]
      cases hscan : scanDays sched (weekdayOf now) 1 6 with
      | none =>
        have := scanDays_isSome sched (weekdayOf now) h7 6 1
        rw [hscan] at this
        exact absurd this (by simp)
      | some o => cases o with
        | none => rfl
        | some p => rfl

/-- Witness for C5 on the empty weekly schedule at instant 0. -/
theorem resolver_total_witness : (get_scheduled_send_time emptyWeek 0 0).isSome :=
  resolver_total emptyWeek 0 0 (by decide)

/-- C4: a schedule with no interval on any of its 7 days makes the
resolver return `NoWindowAvailable` at every instant and every draw. -/
theorem empty_schedule_no_window (sched : Schedule) (now r : Nat)
    (h7 : sched.length = 7) (hempty : ∀ b ∈ sched, b = []) :
    get_scheduled_send_time sched now r = some Decision.noWindowAvailable := by
  have hwd : weekdayOf now < sched.length := by
    rw [h7]; exact Nat.mod_lt _ (by decide)
  have hb : sched[weekdayOf now] = [] := hempty _ (List.getElem_mem hwd)
  simp only [get_scheduled_send_time, List.getElem?_eq_getElem hwd, hb,
    findCurrentRange, findUpcomingToday, List.find?_nil,
    scanDays_of_all_empty sched (weekdayOf now) h7 hempty 6 1]

/-- Witness for C4 on the concrete empty weekly schedule. -/
theorem empty_schedule_no_window_witness :
    get_scheduled_send_time emptyWeek 123456 7 = some Decision.noWindowAvailable :=
  empty_schedule_no_window emptyWeek 123456 7 (by decide) (by decide)

theorem findCurrentRange_eq_none_of_past {bucket : List SendInterval} {t : Nat}
    (hpast : ∀ iv ∈ bucket, iv.2 ≤ t) :
    findCurrentRange bucket t = none := by
  apply List.find?_eq_none.mpr
  intro iv hiv
  have h1 := hpast iv hiv
  simp only [inRangeB, Bool.and_eq_true, decide_eq_true_eq, not_and]
  omega

theorem findUpcomingToday_eq_none_of_past {bucket : List SendInterval} {t : Nat}
    (hwf : ∀ iv ∈ bucket, iv.1 < iv.2) (hpast : ∀ iv ∈ bucket, iv.2 ≤ t) :
    findUpcomingToday bucket t = none := by
  apply List.find?_eq_none.mpr
  intro iv hiv
  have h1 := hwf iv hiv
  have h2 := hpast iv hiv
  simp only [decide_eq_true_eq]
  omega

/-- C2: past all of today's intervals, with tomorrow's earliest interval
being `[s2, e2)`, the resolver schedules on the next calendar day at a
time of day between `s2` and `e2`, the upper bound included because the
random draw is inclusive. -/
theorem next_day_interval (sched : Schedule) (now r : Nat)
    (today rest : List SendInterval) (s2 e2 : Nat)
    (htoday : sched[weekdayOf now]? = some today)
    (hwf : ∀ iv ∈ today, iv.1 < iv.2)
    (hpast : ∀ iv ∈ today, iv.2 ≤ timeOfDay now)
    (htom : sched[(weekdayOf now + 1) % 7]? = some ((s2, e2) :: rest))
    (hs2 : s2 ≤ e2) (he2 : e2 < secPerDay) (hr : r ≤ e2 - s2) :
    get_scheduled_send_time sched now r =
      some (.sendAt ((dayIndex now + 1) * secPerDay + (s2 + r))) ∧
    dayIndex ((dayIndex now + 1) * secPerDay + (s2 + r)) = dayIndex now + 1 ∧
    s2 ≤ timeOfDay ((dayIndex now + 1) * secPerDay + (s2 + r)) ∧
    timeOfDay ((dayIndex now + 1) * secPerDay + (s2 + r)) ≤ e2 := by
  have h6 : (6 : Nat) = Nat.succ 5 := rfl
  have hscan : scanDays sched (weekdayOf now) 1 6 = some (some (1, (s2, e2))) := by
    rw [h6]
    simp only [scanDays, htom, List.head?_cons]
  refine ⟨?_, ?_, ?_, ?_⟩
  · simp only [get_scheduled_send_time, htoday,
      findCurrentRange_eq_none_of_past hpast,
      findUpcomingToday_eq_none_of_past hwf hpast, hscan]
  · simp only [dayIndex, secPerDay] at *
    omega
  · simp only [timeOfDay, secPerDay] at *
    omega
  · simp only [timeOfDay, secPerDay] at *
    omega

/-- A concrete weekly schedule: Monday 10:00–11:00 and Tuesday
14:00–14:30. -/
def monTueSched : Schedule := [[(36000, 39600)], [(50400, 52200)], [], [], [], [], []]

/-- Witness for C2: Monday 11:06:40 (past the Monday interval) with the
Monday/Tuesday schedule and draw 100 schedules Tuesday at 14:01:40. -/
theorem next_day_interval_witness :
    get_scheduled_send_time monTueSched 40000 100 = some (Decision.sendAt 136900) := by
  have h := next_day_interval monTueSched 40000 100 [(36000, 39600)] [] 50400 52200
    rfl (by decide) (by decide) rfl (by decide) (by decide) (by decide)
  exact h.1

/-- C3: with a schedule whose intervals all sit on Monday, a Friday
query lands on the following Monday: three days ahead, weekday 0, never
a past or wrapped-back day. -/
theorem friday_to_monday_wraparound (sched : Schedule) (now r : Nat)
    (s1 e1 : Nat) (rest : List SendInterval)
    (hwd : weekdayOf now = 4)
    (hfri : sched[4]? = some ([] : List SendInterval))
    (h5 : sched[5]? = some ([] : List SendInterval))
    (h6 : sched[6]? = some ([] : List SendInterval))
    (hmon : sched[0]? = some ((s1, e1) :: rest))
    (hs1 : s1 ≤ e1) (he1 : e1 < secPerDay) (hr : r ≤ e1 - s1) :
    get_scheduled_send_time sched now r =
      some (.sendAt ((dayIndex now + 3) * secPerDay + (s1 + r))) ∧
    dayIndex ((dayIndex now + 3) * secPerDay + (s1 + r)) = dayIndex now + 3 ∧
    weekdayOf ((dayIndex now + 3) * secPerDay + (s1 + r)) = 0 := by
  have h6' : (6 : Nat) = Nat.succ 5 := rfl
  have h5' : (5 : Nat) = Nat.succ 4 := rfl
  have h4' : (4 : Nat) = Nat.succ 3 := rfl
  have hscan : scanDays sched (weekdayOf now) 1 6 = some (some (3, (s1, e1))) := by
    rw [hwd, h6']
    simp only [scanDays, show (4 + 1) % 7 = 5 from rfl, h5, List.head?_nil, h5']
    simp only [scanDays, show (4 + 2) % 7 = 6 from rfl, h6, List.head?_nil, h4']
    simp only [scanDays, show (4 + 3) % 7 = 0 from rfl, hmon, List.head?_cons]
  refine ⟨?_, ?_, ?_⟩
  · have htoday : sched[weekdayOf now]? = some ([] : List SendInterval) := by
      rw [hwd]; exact hfri
    simp only [get_scheduled_send_time, htoday, findCurrentRange, findUpcomingToday,
      List.find?_nil, hscan]
  · simp only [dayIndex, secPerDay] at *
    omega
  · simp only [weekdayOf, dayIndex, secPerDay] at *
    omega

/-- Witness for C3: Friday noon with the Monday-only schedule schedules
the following Monday at 10:00. -/
theorem friday_to_monday_wraparound_witness :
    get_scheduled_send_time mondayMorning 388800 0 = some (Decision.sendAt 640800) := by
  have h := friday_to_monday_wraparound mondayMorning 388800 0 36000 39600 []
    rfl rfl rfl rfl rfl (by decide) (by decide) (by decide)
  exact h.1

/-- Constructor tag of a resolver outcome: which of the three decision
variants was produced (or an exception). -/
def decisionTag : Option Decision → Nat
  | none => 0
  | some Decision.sendNow => 1
  | some (Decision.sendAt _) => 2
  | some Decision.noWindowAvailable => 3

/-- C7 counterexample: the code draws `random.randint` from the global
generator on each call, so two runs at the very same schedule and
instant can return different decisions.  With the Monday 10:00–11:00
schedule at Monday midnight, the draws 0 and 1 — both valid for the
3600-second interval — give two different `SendAt` instants. -/
theorem resolver_draw_dependent_counterexample :
    0 ≤ 39600 - 36000 ∧ 1 ≤ 39600 - 36000 ∧
    get_scheduled_send_time mondayMorning 0 0 ≠ get_scheduled_send_time mondayMorning 0 1 := by
  decide

/-- C7 amended: a scheduling query is a pure function of (schedule,
now, jitter draw): runs with equal draws agree exactly, and the decision
variant produced does not depend on the draw at all. -/
theorem resolver_pure_given_draw (sched : Schedule) (now r r1 r2 : Nat) :
    get_scheduled_send_time sched now r = get_scheduled_send_time sched now r ∧
    decisionTag (get_scheduled_send_time sched now r1) =
      decisionTag (get_scheduled_send_time sched now r2) := by
  refine ⟨rfl, ?_⟩
  simp only [get_scheduled_send_time]
  cases hg : sched[weekdayOf now]? with
  | none => simp [hg, decisionTag]
  | some today =>
    cases hfc : findCurrentRange today (timeOfDay now) with
    | some iv => simp [hg, hfc, decisionTag]
    | none =>
      cases hup : findUpcomingToday today (timeOfDay now) with
      | some iv => simp [hg, hfc, hup, decisionTag]
      | none =>
        cases hscan : scanDays sched (weekdayOf now) 1 6 with
        | none => simp [hg, hfc, hup, hscan, decisionTag]
        | some o => cases o with
          | none => simp [hg, hfc, hup, hscan, decisionTag]
          | some p => simp [hg, hfc, hup, hscan, decisionTag]

/-- C8: parsing is deterministic — the same rows give structurally equal
schedules — and the result is a 7-bucket structure whose day lists are
sorted ascending by start time. -/
theorem parse_idempotent_sorted (rows : List Row) :
    parse_time_ranges_csv rows = parse_time_ranges_csv rows ∧
    (parse_time_ranges_csv rows).length = 7 ∧
    ∀ bucket ∈ parse_time_ranges_csv rows,
      List.Pairwise (fun a b : SendInterval => a.1 ≤ b.1) bucket := by
  refine ⟨rfl, by simp [parse_time_ranges_csv], ?_⟩
  intro bucket hb
  simp only [parse_time_ranges_csv, List.mem_map] at hb
  obtain ⟨d, _, rfl⟩ := hb
  exact sorted_sortByStart _

/-- The hard-coded range list written out: for the week's Monday
midnight `m`, the eight Monday–Thursday morning/afternoon pairs of the
current week, the eight of the next week, and the current week's Friday
morning appended last. -/
theorem get_allowed_date_ranges_eq (now : Nat) :
    get_allowed_date_ranges now =
      [(mondayOf now + 36000, mondayOf now + 39600),
       (mondayOf now + 50400, mondayOf now + 52200),
       (mondayOf now + 86400 + 36000, mondayOf now + 86400 + 39600),
       (mondayOf now + 86400 + 50400, mondayOf now + 86400 + 52200),
       (mondayOf now + 172800 + 36000, mondayOf now + 172800 + 39600),
       (mondayOf now + 172800 + 50400, mondayOf now + 172800 + 52200),
       (mondayOf now + 259200 + 36000, mondayOf now + 259200 + 39600),
       (mondayOf now + 259200 + 50400, mondayOf now + 259200 + 52200),
       (mondayOf now + 604800 + 36000, mondayOf now + 604800 + 39600),
       (mondayOf now + 604800 + 50400, mondayOf now + 604800 + 52200),
       (mondayOf now + 691200 + 36000, mondayOf now + 691200 + 39600),
       (mondayOf now + 691200 + 50400, mondayOf now + 691200 + 52200),
       (mondayOf now + 777600 + 36000, mondayOf now + 777600 + 39600),
       (mondayOf now + 777600 + 50400, mondayOf now + 777600 + 52200),
       (mondayOf now + 864000 + 36000, mondayOf now + 864000 + 39600),
       (mondayOf now + 864000 + 50400, mondayOf now + 864000 + 52200),
       (mondayOf now + 345600 + 36000, mondayOf now + 345600 + 39600)] := by
  have h2 : List.range 2 = [0, 1] := rfl
  have h4 : List.range 4 = [0, 1, 2, 3] := rfl
  simp only [get_allowed_date_ranges, h2, h4, List.map_cons, List.map_nil,
    List.flatten_cons, List.flatten_nil, List.append_nil, List.cons_append,
    List.nil_append, List.cons.injEq, Prod.mk.injEq, hmToSec, secPerDay, and_true]

/-- Every hard-coded range starts before it ends and lies on a weekday
(Monday–Friday). -/
theorem allowed_ranges_wf (now : Nat) :
    ∀ iv ∈ get_allowed_date_ranges now, iv.1 < iv.2 ∧ weekdayOf iv.1 < 5 := by
  intro iv hiv
  rw [get_allowed_date_ranges_eq] at hiv
  simp only [List.mem_cons, List.not_mem_nil, or_false] at hiv
  rcases hiv with rfl | rfl | rfl | rfl | rfl | rfl | rfl | rfl | rfl | rfl | rfl | rfl |
    rfl | rfl | rfl | rfl | rfl <;>
    refine ⟨by simp, ?_⟩ <;>
    · simp only [weekdayOf, dayIndex, mondayOf, timeOfDay, secPerDay]
      omega

/-- C9: `get_allowed_date_ranges` consults no schedule input — for every
instant it returns exactly the 17 ranges determined by that week's
Monday: 10:00–11:00 and 14:00–14:30 on Monday–Thursday of the current
week (day offsets 0–3) and of the next week (day offsets 7–10), plus
10:00–11:00 on the current week's Friday (offset 4) only; none falls on
a Saturday or a Sunday. -/
theorem allowed_ranges_fixed_17 (now : Nat) :
    (get_allowed_date_ranges now).length = 17 ∧
    get_allowed_date_ranges now =
      [(mondayOf now + 36000, mondayOf now + 39600),
       (mondayOf now + 50400, mondayOf now + 52200),
       (mondayOf now + 86400 + 36000, mondayOf now + 86400 + 39600),
       (mondayOf now + 86400 + 50400, mondayOf now + 86400 + 52200),
       (mondayOf now + 172800 + 36000, mondayOf now + 172800 + 39600),
       (mondayOf now + 172800 + 50400, mondayOf now + 172800 + 52200),
       (mondayOf now + 259200 + 36000, mondayOf now + 259200 + 39600),
       (mondayOf now + 259200 + 50400, mondayOf now + 259200 + 52200),
       (mondayOf now + 604800 + 36000, mondayOf now + 604800 + 39600),
       (mondayOf now + 604800 + 50400, mondayOf now + 604800 + 52200),
       (mondayOf now + 691200 + 36000, mondayOf now + 691200 + 39600),
       (mondayOf now + 691200 + 50400, mondayOf now + 691200 + 52200),
       (mondayOf now + 777600 + 36000, mondayOf now + 777600 + 39600),
       (mondayOf now + 777600 + 50400, mondayOf now + 777600 + 52200),
       (mondayOf now + 864000 + 36000, mondayOf now + 864000 + 39600),
       (mondayOf now + 864000 + 50400, mondayOf now + 864000 + 52200),
       (mondayOf now + 345600 + 36000, mondayOf now + 345600 + 39600)] ∧
    ∀ iv ∈ get_allowed_date_ranges now, weekdayOf iv.1 ≠ 5 ∧ weekdayOf iv.1 ≠ 6 := by
  refine ⟨?_, get_allowed_date_ranges_eq now, ?_⟩
  · rw [get_allowed_date_ranges_eq]; rfl
  · intro iv hiv
    have h := (allowed_ranges_wf now iv hiv).2
    omega

/-- Witness for C9 at instant 0: 17 ranges, and the first one lies on a
Monday, not on a weekend day. -/
theorem allowed_ranges_fixed_17_witness :
    (get_allowed_date_ranges 0).length = 17 ∧
    (weekdayOf (36000, 39600).1 ≠ 5 ∧ weekdayOf (36000, 39600).1 ≠ 6) :=
  ⟨(allowed_ranges_fixed_17 0).1,
   (allowed_ranges_fixed_17 0).2.2 (36000, 39600) (by decide)⟩

/-- C6: outside every window, the legacy scheduler returns the next
range's start plus the drawn seconds; any draw up to
`end_seconds - start_seconds` keeps the result inside `[start, end]`,
the maximal draw lands exactly on `end`, and `end` itself fails the
half-open containment check. -/
theorem inclusive_draw_can_hit_end (now r st en : Nat)
    (hcur : find_current_range now (get_allowed_date_ranges now) = none)
    (hnext : find_next_range now (get_allowed_date_ranges now) = some (st, en))
    (hr : r ≤ en - st) :
    get_scheduled_send_time_legacy now r = some (.sendAt (st + r)) ∧
    st ≤ st + r ∧ st + r ≤ en ∧
    (r = en - st → st + r = en) ∧
    inRangeB (st, en) en = false := by
  have hnext' : (sortByStart ((get_allowed_date_ranges now).filter
      (fun iv => now < iv.1))).head? = some (st, en) := hnext
  have hmem1 : (st, en) ∈ sortByStart ((get_allowed_date_ranges now).filter
      (fun iv => now < iv.1)) :=
    List.mem_of_mem_head? (Option.mem_def.mpr hnext')
  have hmem2 := List.mem_filter.mp (mem_sortByStart.mp hmem1)
  have hlt : st < en := (allowed_ranges_wf now _ hmem2.1).1
  refine ⟨?_, Nat.le_add_right st r, by omega, fun h => by omega, by simp [inRangeB]⟩
  simp only [get_scheduled_send_time_legacy, hcur, hnext]

/-- Witness for C6 at Monday midnight: the maximal draw of 3600 seconds
for the Monday 10:00–11:00 range sends exactly at 11:00, an instant the
containment check itself rejects. -/
theorem inclusive_draw_can_hit_end_witness :
    get_scheduled_send_time_legacy 0 3600 = some (Decision.sendAt 39600) ∧
    inRangeB (36000, 39600) 39600 = false := by
  have h := inclusive_draw_can_hit_end 0 3600 36000 39600 (by decide) (by decide) (by decide)
  exact ⟨by simpa using h.1, h.2.2.2.2⟩

/-- C10: whenever the legacy scheduler answers with a `SendAt` instant
instead of `True`, the chosen range's start lies strictly after `now`
and the nonnegative jitter only moves the result past that start, so the
returned instant is strictly in the future. -/
theorem sendAt_strictly_future (now r t st en : Nat)
    (hsend : get_scheduled_send_time_legacy now r = some (.sendAt t))
    (hnext : find_next_range now (get_allowed_date_ranges now) = some (st, en)) :
    now < st ∧ st ≤ t ∧ now < t := by
  cases hcur : find_current_range now (get_allowed_date_ranges now) with
  | some iv =>
    rw [show get_scheduled_send_time_legacy now r = some .sendNow from by
      simp only [get_scheduled_send_time_legacy, hcur]] at hsend
    exact absurd hsend (by simp)
  | none =>
    simp only [get_scheduled_send_time_legacy, hcur, hnext, Option.some.injEq,
      Decision.sendAt.injEq] at hsend
    have hnext' : (sortByStart ((get_allowed_date_ranges now).filter
        (fun iv => now < iv.1))).head? = some (st, en) := hnext
    have hmem1 : (st, en) ∈ sortByStart ((get_allowed_date_ranges now).filter
        (fun iv => now < iv.1)) :=
      List.mem_of_mem_head? (Option.mem_def.mpr hnext')
    have hmem2 := List.mem_filter.mp (mem_sortByStart.mp hmem1)
    have hfuture : now < st := by simpa using hmem2.2
    omega

/-- Witness for C10 at Monday midnight with draw 5: the scheduler sends
at 10:00:05, strictly after `now`. -/
theorem sendAt_strictly_future_witness :
    get_scheduled_send_time_legacy 0 5 = some (Decision.sendAt 36005) ∧ 0 < 36005 := by
  have h := sendAt_strictly_future 0 5 36005 36000 39600 (by decide) (by decide)
  exact ⟨by decide, h.2.2⟩

/-- The rows of `test_parse_time_ranges_csv`: Monday 09:00–12:00,
Monday 13:00–15:00, Tuesday 10:00–14:00. -/
def demoRows : List Row := [(0, (9, 0), (12, 0)), (0, (13, 0), (15, 0)), (1, (10, 0), (14, 0))]

/-- Witness for C8 on the test's rows: seven buckets, and the Monday
bucket the parser builds is sorted. -/
theorem parse_idempotent_sorted_witness :
    (parse_time_ranges_csv demoRows).length = 7 ∧
    List.Pairwise (fun a b : SendInterval => a.1 ≤ b.1) [(32400, 43200), (46800, 54000)] :=
  ⟨(parse_idempotent_sorted demoRows).2.1,
   (parse_idempotent_sorted demoRows).2.2 _ (by decide)⟩
